import Mathlib

/-!
Verification development for the sferics logger repository.

The development shallowly embeds the two core subsystems:
* the nightly scheduling / segmented-capture loop of
  `vlf_cron_sferic_logger.py` (`next_window_start`, `window_end_for`,
  `record_stream_to_file`, `run_night_recording`), and
* the block-streamed spectrogram pipeline of `vlf_spectrogram.py`
  (`plot_spectrogram`) together with the single-pass reference
  transform of `vlf_sp_old.py`.

Datetimes are modelled as minute counts (`ℕ`), segment clocks as second
counts, audio samples as rationals (`ℚ`) standing for the float samples,
and the fallible / effectful parts of `plot_spectrogram` as an explicit
event trace with fault injection.
-/

deriving instance DecidableEq for Except

namespace Sferics

/-! ## WindowScheduler (vlf_cron_sferic_logger.py, lines 36-49)

A `datetime` is a number of minutes since some epoch; `t / 1440` is its
calendar date (`now.date()`), `t % 1440` its clock time.  `ws` and `we`
are the configured daily start and end clock times (`WINDOW_START`,
`WINDOW_END`), in minutes of the day. -/

/-- Minutes in a calendar day. -/
def minutesPerDay : ℕ := 1440

/-- Model of `next_window_start(now)`: `datetime.combine(now.date(), WINDOW_START)`
is `now / 1440 * 1440 + ws`; return it if `now` is at or before it, else the
same clock time one day later. -/
def next_window_start (ws now : ℕ) : ℕ :=
  let today_start := now / minutesPerDay * minutesPerDay + ws
  if now ≤ today_start then today_start else today_start + minutesPerDay

/-- Model of `window_end_for(start_dt)`: one calendar day after `start_dt`'s
date, at the configured end clock time `we`, unconditionally. -/
def window_end_for (we start : ℕ) : ℕ :=
  (start / minutesPerDay + 1) * minutesPerDay + we

/-- Claim C6: `next_window_start` returns today's date at the configured start
clock time when `now` is at or before that time today, and otherwise
tomorrow's date at that time; the result is always `≥ now` and its clock time
always equals the configured start time. -/
theorem next_window_start_spec (ws now : ℕ) (hws : ws < minutesPerDay) :
    (now % minutesPerDay ≤ ws →
      next_window_start ws now = now / minutesPerDay * minutesPerDay + ws) ∧
    (ws < now % minutesPerDay →
      next_window_start ws now = (now / minutesPerDay + 1) * minutesPerDay + ws) ∧
    now ≤ next_window_start ws now ∧
    next_window_start ws now % minutesPerDay = ws := by
  simp only [next_window_start, minutesPerDay] at *
  split <;> omega

/-- Witness for C6 at `ws = 1080` (18:00) and a concrete `now`. -/
theorem next_window_start_spec_witness :
    (3000 % minutesPerDay ≤ 1080 →
      next_window_start 1080 3000 = 3000 / minutesPerDay * minutesPerDay + 1080) ∧
    (1080 < 3000 % minutesPerDay →
      next_window_start 1080 3000 = (3000 / minutesPerDay + 1) * minutesPerDay + 1080) ∧
    3000 ≤ next_window_start 1080 3000 ∧
    next_window_start 1080 3000 % minutesPerDay = 1080 :=
  next_window_start_spec 1080 3000 (by decide)

/-- Claim C7: `window_end_for` returns the datetime whose date is exactly one
calendar day after `start`'s date and whose clock time is the configured end
clock time, unconditionally. -/
theorem window_end_for_spec (we start : ℕ) (hwe : we < minutesPerDay) :
    window_end_for we start / minutesPerDay = start / minutesPerDay + 1 ∧
    window_end_for we start % minutesPerDay = we := by
  unfold window_end_for minutesPerDay
  unfold minutesPerDay at hwe
  omega

/-- Witness for C7 at `we = 360` (06:00) and a concrete `start`. -/
theorem window_end_for_spec_witness :
    window_end_for 360 2520 / minutesPerDay = 2520 / minutesPerDay + 1 ∧
    window_end_for 360 2520 % minutesPerDay = 360 :=
  window_end_for_spec 360 2520 (by decide)

/-! ## SegmentedCapture (vlf_cron_sferic_logger.py, lines 113-127)

The loop of `run_night_recording`:
```
while segment_start < end_dt and segments < TOTAL_HOURS:
    segment_end = min(segment_start + timedelta(hours=SEGMENT_HOURS), end_dt)
    try: record_stream_to_file(...)
    except Exception: log and continue
    segment_start = segment_end
    segments += 1
```
Times are seconds (`ℕ`), `S` the per-segment duration, the remaining cap
`M - segments` drives the recursion.  `fail` injects a per-segment capture
outcome (the `except` branch); the loop records it and advances regardless. -/

/-- Model of the `run_night_recording` segment loop: from start `s` to window
end `e` with per-segment duration `S` and `cap` segments still allowed,
produce each segment's `(start, clamped end, capture succeeded)`. -/
def run_night_segments (S : ℕ) (fail : ℕ → Bool) : ℕ → ℕ → ℕ → List (ℕ × ℕ × Bool)
  | 0, _, _ => []
  | cap + 1, s, e =>
    if s < e then
      (s, min (s + S) e, !fail s) :: run_night_segments S fail cap (min (s + S) e) e
    else []

/-- The segment boundaries produced by the loop, ignoring capture outcomes. -/
def segment_bounds (S cap s e : ℕ) : List (ℕ × ℕ) :=
  (run_night_segments S (fun _ => false) cap s e).map (fun t => (t.1, t.2.1))

/-- Closed form of the segment loop: `min ⌈(e - s) / S⌉ cap` segments, the
`i`-th spanning `[s + i*S, min (s + (i+1)*S) e)`. -/
theorem segment_bounds_closed_form (S : ℕ) (hS : 0 < S) :
    ∀ cap s e, segment_bounds S cap s e =
      (List.range (min ((e - s + S - 1) / S) cap)).map
        (fun i => (s + i * S, min (s + (i + 1) * S) e)) := by
  intro cap
  induction cap with
  | zero =>
    intro s e
    simp [segment_bounds, run_night_segments]
  | succ cap ih =>
    intro s e
    by_cases hse : s < e
    · by_cases hclose : e ≤ s + S
      · have h1 : (e - s + S - 1) / S = 1 := by
          refine Nat.div_eq_of_lt_le (by omega) (by omega)
        have hcnt : min ((e - s + S - 1) / S) (cap + 1) = 1 := by omega
        have hmin : min (s + S) e = e := by omega
        have hrest : run_night_segments S (fun _ => false) cap e e = [] := by
          cases cap <;> simp [run_night_segments]
        simp only [segment_bounds, run_night_segments, if_pos hse, hmin, hrest, hcnt,
          List.map_cons, List.map_nil]
        simp [List.range_succ, hmin]
      · push_neg at hclose
        have hmin : min (s + S) e = s + S := by omega
        have hcnt : min ((e - s + S - 1) / S) (cap + 1) =
            min ((e - (s + S) + S - 1) / S) cap + 1 := by
          have hsplit : e - s + S - 1 = (e - (s + S) + S - 1) + S := by omega
          rw [hsplit, Nat.add_div_right _ hS]
          omega
        have ihe := ih (s + S) e
        simp only [segment_bounds] at ihe
        simp only [segment_bounds, run_night_segments, if_pos hse, hmin, List.map_cons, ihe,
          hcnt, List.range_succ_eq_map, List.map_map]
        refine congrArg₂ List.cons ?_ ?_
        · simp [hmin]
        · apply List.map_congr_left
          intro i _
          simp only [Function.comp_apply, Nat.succ_eq_add_one]
          refine congrArg₂ Prod.mk (by ring) ?_
          refine congrArg₂ min (by ring) rfl
    · have hcnt : min ((e - s + S - 1) / S) (cap + 1) = 0 := by
        have : (e - s + S - 1) / S = 0 := Nat.div_eq_of_lt (by omega)
        omega
      simp [segment_bounds, run_night_segments, hse, hcnt]

/-- The segment boundaries do not depend on per-segment capture outcomes:
a capture failure is caught and the loop advances identically. -/
theorem run_night_segments_bounds_indep (S : ℕ) (fail : ℕ → Bool) :
    ∀ cap s e, (run_night_segments S fail cap s e).map (fun t => (t.1, t.2.1)) =
      segment_bounds S cap s e := by
  intro cap
  induction cap with
  | zero => intro s e; simp [segment_bounds, run_night_segments]
  | succ cap ih =>
    intro s e
    by_cases hse : s < e
    · simp only [segment_bounds, run_night_segments, hse, if_pos, List.map_cons]
      have := ih (min (s + S) e) e
      simp only [segment_bounds] at this
      simp [this]
    · simp [segment_bounds, run_night_segments, hse]

/-- Claim C4: the capture loop iterates segment start times from the window
start, clamps each segment end to `min (start + S) window_end`, stops at the
window end or after `M` segments, producing `min ⌈D/S⌉ M` segments with the
last clamped to the remaining window; capture failures do not disturb the
sequence of segments. -/
theorem segmented_capture_spec (S M s e : ℕ) (fail : ℕ → Bool) (hS : 0 < S) :
    segment_bounds S M s e =
      (List.range (min ((e - s + S - 1) / S) M)).map
        (fun i => (s + i * S, min (s + (i + 1) * S) e)) ∧
    (segment_bounds S M s e).length = min ((e - s + S - 1) / S) M ∧
    (run_night_segments S fail M s e).map (fun t => (t.1, t.2.1)) =
      segment_bounds S M s e := by
  refine ⟨segment_bounds_closed_form S hS M s e, ?_, run_night_segments_bounds_indep S fail M s e⟩
  rw [segment_bounds_closed_form S hS M s e]
  simp

/-- Witness for C4: a 5-hour window in 2-hour segments capped at 12 gives
3 segments, the last clamped. -/
theorem segmented_capture_spec_witness :
    segment_bounds 7200 12 0 18000 =
      (List.range (min ((18000 - 0 + 7200 - 1) / 7200) 12)).map
        (fun i => (0 + i * 7200, min (0 + (i + 1) * 7200) 18000)) ∧
    (segment_bounds 7200 12 0 18000).length = min ((18000 - 0 + 7200 - 1) / 7200) 12 ∧
    (run_night_segments 7200 (fun _ => true) 12 0 18000).map (fun t => (t.1, t.2.1)) =
      segment_bounds 7200 12 0 18000 :=
  segmented_capture_spec 7200 12 0 18000 (fun _ => true) (by decide)

/-! ## StreamingRecorder consumer loop (vlf_cron_sferic_logger.py, lines 69-92)

```
frames_to_write = duration_seconds * fs
written = 0
while written < frames_to_write:
    data = q.get()
    remaining = frames_to_write - written
    if len(data) > remaining:
        data = data[:remaining]
    file.write(data)
    written += len(data)
```
The queue's contents are a list of blocks (each a list of frames, one `ℚ`
per frame for the mono case); the loop consumes them in FIFO order. -/

/-- Model of the consumer loop of `record_stream_to_file`: returns the final
cumulative `written` count and the frames appended to the segment file. -/
def write_loop (T : ℕ) : List (List ℚ) → ℕ → ℕ × List ℚ
  | [], written => (written, [])
  | b :: rest, written =>
    if written < T then
      let data := if b.length > T - written then b.take (T - written) else b
      let out := write_loop T rest (written + data.length)
      (out.1, data ++ out.2)
    else (written, [])

/-- Once the target is reached, the loop writes nothing more. -/
theorem write_loop_full (T : ℕ) (blocks : List (List ℚ)) (written : ℕ) (h : T ≤ written) :
    write_loop T blocks written = (written, []) := by
  cases blocks with
  | nil => rfl
  | cons b rest => simp [write_loop, Nat.not_lt.mpr h]

/-- Generalized invariant for `write_loop`: starting from `written ≤ T` with
enough queued frames, the loop ends at exactly `T` and writes the next
`T - written` queued frames. -/
theorem write_loop_exact (T : ℕ) :
    ∀ (blocks : List (List ℚ)) (written : ℕ), written ≤ T →
      T ≤ written + (blocks.map List.length).sum →
      (write_loop T blocks written).1 = T ∧
      (write_loop T blocks written).2 = blocks.flatten.take (T - written) := by
  intro blocks
  induction blocks with
  | nil =>
    intro written h1 h2
    simp only [List.map_nil, List.sum_nil, Nat.add_zero] at h2
    have : written = T := le_antisymm h1 h2
    simp [write_loop, this]
  | cons b rest ih =>
    intro written h1 h2
    by_cases hw : written < T
    · simp only [write_loop, if_pos hw]
      by_cases hbig : b.length > T - written
      · have hlen : (b.take (T - written)).length = T - written := by
          simp only [List.length_take]
          omega
        simp only [if_pos hbig, hlen]
        rw [write_loop_full T rest _ (by omega)]
        refine ⟨by omega, ?_⟩
        rw [List.flatten_cons, List.take_append_of_le_length (by omega)]
        simp
      · push_neg at hbig
        simp only [if_neg (by omega : ¬ b.length > T - written)]
        have hrec := ih (written + b.length) (by omega)
          (by simp only [List.map_cons, List.sum_cons] at h2; omega)
        refine ⟨hrec.1, ?_⟩
        rw [hrec.2, List.flatten_cons]
        have hT : T - written = b.length + (T - (written + b.length)) := by omega
        rw [hT, List.take_append]
    · have : written = T := by omega
      simp [write_loop, hw, this]

/-- Claim C5: for target frame count `T = duration_seconds * sample_rate`,
the consumer loop truncates any dequeued block that would push the cumulative
written count past `T`, and terminates with exactly `T` frames written to the
segment file (the first `T` queued frames). -/
theorem record_stream_consumer_spec (duration_seconds fs : ℕ) (blocks : List (List ℚ))
    (henough : duration_seconds * fs ≤ (blocks.map List.length).sum) :
    (write_loop (duration_seconds * fs) blocks 0).1 = duration_seconds * fs ∧
    (write_loop (duration_seconds * fs) blocks 0).2 =
      blocks.flatten.take (duration_seconds * fs) ∧
    ((write_loop (duration_seconds * fs) blocks 0).2).length = duration_seconds * fs := by
  obtain ⟨h1, h2⟩ := write_loop_exact (duration_seconds * fs) blocks 0 (Nat.zero_le _)
    (by omega)
  refine ⟨h1, by simpa using h2, ?_⟩
  rw [h2]
  simp only [Nat.sub_zero, List.length_take]
  have : blocks.flatten.length = (blocks.map List.length).sum := by
    simp [List.length_flatten]
  omega

/-- Witness for C5: a 3-frame target fed by blocks of sizes 2 and 2; the
second block is truncated and exactly 3 frames are written. -/
theorem record_stream_consumer_spec_witness :
    (write_loop (3 * 1) [[1, 2], [3, 4]] 0).1 = 3 * 1 ∧
    (write_loop (3 * 1) [[1, 2], [3, 4]] 0).2 =
      ([[1, 2], [3, 4]] : List (List ℚ)).flatten.take (3 * 1) ∧
    ((write_loop (3 * 1) [[1, 2], [3, 4]] 0).2).length = 3 * 1 :=
  record_stream_consumer_spec 3 1 [[1, 2], [3, 4]] (by decide)

/-! ## SpectralAnalyzer: selection resolution and buffer sizing
(vlf_spectrogram.py, lines 52-106)

`sf.info` supplies `(frames, samplerate)`.  Seconds are rationals; Python's
`int(...)` truncates toward zero.  The error order of `plot_spectrogram` is:
start beyond end-of-file, then empty segment, then non-positive hop. -/

/-- File metadata from `sf.info(filename)`. -/
structure SpecInfo where
  frames : ℕ
  samplerate : ℕ
deriving DecidableEq

/-- The parameters of `plot_spectrogram` relevant to selection and sizing. -/
structure SpecArgs where
  nperseg : ℕ
  noverlap : ℕ
  block_seconds : ℚ
  start_sec : Option ℚ
  duration_sec : Option ℚ
  last_minutes : Option ℚ
deriving DecidableEq

/-- Python's `int(q)` for a rational: truncation toward zero
(`q.num.tdiv q.den` since the denominator is positive). -/
def pyInt (q : ℚ) : ℤ := Int.tdiv q.num (q.den : ℤ)

/-- `total_samples / float(samplerate) if samplerate else 0.0`. -/
def total_duration_sec (info : SpecInfo) : ℚ :=
  if info.samplerate = 0 then 0 else (info.frames : ℚ) / (info.samplerate : ℚ)

/-- The `(start_sec, duration_sec)` actually used: `last_minutes` overrides the
explicit pair, with the start clamped to `≥ 0`; otherwise an absent start
means `0.0`. -/
def resolved_selection_secs (info : SpecInfo) (a : SpecArgs) : ℚ × Option ℚ :=
  match a.last_minutes with
  | some lm =>
    let d := lm * 60
    (max 0 (total_duration_sec info - d), some d)
  | none => ((a.start_sec).getD 0, a.duration_sec)

/-- `start_frame = int(start_sec * samplerate)`. -/
def start_frame_of (info : SpecInfo) (a : SpecArgs) : ℤ :=
  pyInt ((resolved_selection_secs info a).1 * (info.samplerate : ℚ))

/-- `frames_available = max(0, total_samples - start_frame)` and
`segment_frames = frames_available if duration_sec is None else
min(int(duration_sec * samplerate), frames_available)`. -/
def segment_frames_of (info : SpecInfo) (a : SpecArgs) : ℤ :=
  let fa : ℤ := max 0 ((info.frames : ℤ) - start_frame_of info a)
  match (resolved_selection_secs info a).2 with
  | none => fa
  | some d => min (pyInt (d * (info.samplerate : ℚ))) fa

/-- `hop = nperseg - noverlap` (as a signed quantity, so it can be `≤ 0`). -/
def hop_of (a : SpecArgs) : ℤ := (a.nperseg : ℤ) - (a.noverlap : ℤ)

/-- The quantities `plot_spectrogram` resolves before streaming starts. -/
structure Resolved where
  start_frame : ℤ
  segment_frames : ℤ
  hop : ℤ
  n_time : ℤ
  n_freq : ℕ
  ncols : ℤ
  frames_per_block : ℤ
deriving DecidableEq

/-- The failures of `plot_spectrogram` (all raised as `ValueError` in the
source; the spec names the first kind RangeError and the third kind
ConfigurationError) together with injected stream/render faults. -/
inductive PlotErr where
  | rangeStartBeyondEOF
  | rangeEmpty
  | configHopNonpositive
  | streamFault
  | renderFault
deriving DecidableEq

/-- Model of lines 69-106 of `plot_spectrogram`: the validation checks in
source order, then the precomputed sizes. -/
def resolve_selection (info : SpecInfo) (a : SpecArgs) : Except PlotErr Resolved :=
  let sf := start_frame_of info a
  if (info.frames : ℤ) ≤ sf then .error .rangeStartBeyondEOF
  else
    let seg := segment_frames_of info a
    if seg ≤ 0 then .error .rangeEmpty
    else
      let hop := hop_of a
      if hop ≤ 0 then .error .configHopNonpositive
      else
        let n_time : ℤ := if (a.nperseg : ℤ) ≤ seg then 1 + (seg - (a.nperseg : ℤ)) / hop else 1
        .ok
        { start_frame := sf
          segment_frames := seg
          hop := hop
          n_time := n_time
          n_freq := a.nperseg / 2 + 1
          ncols := max n_time 1
          frames_per_block := max (pyInt (a.block_seconds * (info.samplerate : ℚ))) (a.nperseg : ℤ) }

/-! ## Effect trace of one `plot_spectrogram` invocation
(vlf_spectrogram.py, lines 52-217)

The cleanup at lines 208-217 is straight-line code after `plt.savefig`; it is
not inside a `try/finally`, so an exception raised while streaming or
rendering propagates without deleting the memmap file.  `fault` injects such
an exception. -/

/-- The externally visible steps of an invocation, in order. -/
inductive PlotEv where
  | readMetadata
  | allocBuffer
  | readAudio
  | deleteBuffer
deriving DecidableEq

/-- A step of the pipeline that an injected exception can interrupt. -/
inductive FaultPhase where
  | streaming
  | rendering
deriving DecidableEq

/-- One invocation of `plot_spectrogram`: metadata is read first; a validation
failure raises before the buffer exists; otherwise the buffer is allocated,
audio is streamed, the image rendered, and only after a successful render is
the buffer file removed. -/
def plot_spectrogram_run (info : SpecInfo) (a : SpecArgs) (fault : Option FaultPhase) :
    Except PlotErr Unit × List PlotEv :=
  match resolve_selection info a with
  | .error e => (.error e, [.readMetadata])
  | .ok _ =>
    match fault with
    | some .streaming => (.error .streamFault, [.readMetadata, .allocBuffer, .readAudio])
    | some .rendering => (.error .renderFault, [.readMetadata, .allocBuffer, .readAudio])
    | none => (.ok (), [.readMetadata, .allocBuffer, .readAudio, .deleteBuffer])

/-- The invocation ends with the disk-backed buffer file still on disk. -/
def buffer_file_left (ev : List PlotEv) : Bool :=
  ev.contains .allocBuffer && !(ev.contains .deleteBuffer)

/-- Whether selection resolution succeeds. -/
def resolve_ok (info : SpecInfo) (a : SpecArgs) : Bool :=
  match resolve_selection info a with
  | .ok _ => true
  | .error _ => false

/-- A concrete file: 100 frames at 10 Hz. -/
def demo_info : SpecInfo := ⟨100, 10⟩

/-- Concrete valid arguments: `N = 4`, `V = 2`, one-second blocks, whole file. -/
def demo_args : SpecArgs := ⟨4, 2, 1, none, none, none⟩

/-- What `resolve_selection` yields on `demo_info` / `demo_args`. -/
def demo_resolved : Resolved := ⟨0, 100, 2, 49, 3, 49, 10⟩

/-- On the concrete demo file and arguments, resolution succeeds with the
values of `demo_resolved`. -/
theorem demo_resolve_eq : resolve_selection demo_info demo_args = .ok demo_resolved := by
  simp only [resolve_selection, start_frame_of, segment_frames_of, hop_of,
    resolved_selection_secs, total_duration_sec, pyInt, demo_info, demo_args, demo_resolved,
    Option.getD_none]
  norm_num [Int.tdiv]

/-- Counterexample to claim C2: rendering fails after the buffer was
allocated, and the invocation finishes with the buffer file still on disk —
the cleanup is not run on the error path. -/
theorem cleanup_claim_cex :
    (plot_spectrogram_run demo_info demo_args (some .rendering)).1 = .error .renderFault ∧
    buffer_file_left (plot_spectrogram_run demo_info demo_args (some .rendering)).2 = true := by
  simp only [plot_spectrogram_run, demo_resolve_eq]
  decide

/-- Claim C2 as amended: the buffer file is gone at the end of an invocation
exactly when no fault occurred after allocation; a failing stream or render
step leaves the file on disk, and a validation failure never creates it. -/
theorem cleanup_on_success_only (info : SpecInfo) (a : SpecArgs) (fault : Option FaultPhase) :
    buffer_file_left (plot_spectrogram_run info a fault).2 =
      (resolve_ok info a && fault.isSome) := by
  cases hr : resolve_selection info a with
  | error e =>
    rcases fault with _ | ph
    · simp [plot_spectrogram_run, hr, resolve_ok, buffer_file_left]
    · cases ph <;> simp [plot_spectrogram_run, hr, resolve_ok, buffer_file_left]
  | ok r =>
    rcases fault with _ | ph
    · simp [plot_spectrogram_run, hr, resolve_ok, buffer_file_left]
    · cases ph <;> simp [plot_spectrogram_run, hr, resolve_ok, buffer_file_left]

/-- Arguments whose hop is non-positive (`nperseg = noverlap = 4`) and whose
start offset lies beyond the end of the 10-frame file. -/
def cex_info : SpecInfo := ⟨10, 1⟩

/-- `start_sec = 20` on a 10-second file, with `hop = 4 - 4 = 0`. -/
def cex_args : SpecArgs := ⟨4, 4, 1, some 20, none, none⟩

/-- On the concrete out-of-range input, resolution fails with the range
error even though the hop is also invalid. -/
theorem cex_resolve_eq :
    resolve_selection cex_info cex_args = .error .rangeStartBeyondEOF := by
  simp only [resolve_selection, start_frame_of, resolved_selection_secs, total_duration_sec,
    pyInt, cex_info, cex_args, Option.getD_some]
  norm_num [Int.tdiv]

/-- Counterexample to claim C3: with `hop ≤ 0` the analyzer does not fail with
a ConfigurationError — the range checks run first (and only after the
metadata I/O of `sf.info`), so this input fails with the RangeError instead. -/
theorem validation_order_cex :
    hop_of cex_args ≤ 0 ∧
    resolve_selection cex_info cex_args = .error .rangeStartBeyondEOF :=
  ⟨by decide, cex_resolve_eq⟩

/-- Claim C3 as amended: after the metadata read, the checks run in source
order — start at or beyond end-of-file raises the RangeError, then an empty
resolved range raises the RangeError, and only then a non-positive hop raises
the ConfigurationError; every validation failure happens before the buffer is
allocated and before any audio data is read, so no partial output exists. -/
theorem validation_spec (info : SpecInfo) (a : SpecArgs) (fault : Option FaultPhase) :
    ((info.frames : ℤ) ≤ start_frame_of info a →
      resolve_selection info a = .error .rangeStartBeyondEOF) ∧
    (start_frame_of info a < (info.frames : ℤ) → segment_frames_of info a ≤ 0 →
      resolve_selection info a = .error .rangeEmpty) ∧
    (start_frame_of info a < (info.frames : ℤ) → 0 < segment_frames_of info a →
      hop_of a ≤ 0 → resolve_selection info a = .error .configHopNonpositive) ∧
    (∀ e, resolve_selection info a = .error e →
      (plot_spectrogram_run info a fault).2 = [.readMetadata]) := by
  refine ⟨?_, ?_, ?_, ?_⟩
  · intro h
    simp only [resolve_selection, if_pos h]
  · intro h1 h2
    simp only [resolve_selection, if_neg (by omega : ¬ (info.frames : ℤ) ≤ start_frame_of info a),
      if_pos h2]
  · intro h1 h2 h3
    simp only [resolve_selection, if_neg (by omega : ¬ (info.frames : ℤ) ≤ start_frame_of info a),
      if_neg (by omega : ¬ segment_frames_of info a ≤ 0), if_pos h3]
  · intro e he
    simp [plot_spectrogram_run, he]

/-- Claim C8: on a successful resolution, the precomputed column count is
`⌊(segment_frames - N) / hop⌋ + 1` when `segment_frames ≥ N` and `1`
otherwise, and the buffer is allocated with exactly `N / 2 + 1` rows and
exactly that many columns (the `max · 1` in the source never changes it). -/
theorem buffer_shape_spec (info : SpecInfo) (a : SpecArgs) (r : Resolved)
    (h : resolve_selection info a = .ok r) :
    (r.n_time = if (a.nperseg : ℤ) ≤ r.segment_frames
        then (r.segment_frames - (a.nperseg : ℤ)) / r.hop + 1 else 1) ∧
    r.n_freq = a.nperseg / 2 + 1 ∧
    r.ncols = r.n_time ∧
    r.segment_frames = segment_frames_of info a ∧
    r.hop = hop_of a := by
  simp only [resolve_selection] at h
  split at h
  · exact absurd h (by simp)
  · split at h
    · exact absurd h (by simp)
    · split at h
      · exact absurd h (by simp)
      · rename_i hsf hseg hhop
        injection h with h
        subst h
        push_neg at hseg hhop
        refine ⟨?_, rfl, ?_, rfl, rfl⟩
        · split <;> ring
        · simp only
          split
          · rename_i hle
            have hd : 0 ≤ (segment_frames_of info a - (a.nperseg : ℤ)) / hop_of a :=
              Int.ediv_nonneg (by omega) (by omega)
            omega
          · rfl

/-- Witness for C8 at the concrete `demo_info` / `demo_args` resolution. -/
theorem buffer_shape_spec_witness :
    (demo_resolved.n_time = if ((demo_args.nperseg : ℤ)) ≤ demo_resolved.segment_frames
        then (demo_resolved.segment_frames - (demo_args.nperseg : ℤ)) / demo_resolved.hop + 1
        else 1) ∧
    demo_resolved.n_freq = demo_args.nperseg / 2 + 1 ∧
    demo_resolved.ncols = demo_resolved.n_time ∧
    demo_resolved.segment_frames = segment_frames_of demo_info demo_args ∧
    demo_resolved.hop = hop_of demo_args :=
  buffer_shape_spec demo_info demo_args demo_resolved demo_resolve_eq

/-! ## SpectralAnalyzer: the streaming loop (vlf_spectrogram.py, lines 105-154)

A signal is a `List ℚ` of mono samples.  `scipy.signal.spectrogram` on a
chunk `y` with window length `N` and hop `hop` transforms the hop-spaced
`N`-length windows `y[i*hop : i*hop + N]`; the per-window magnitude/dB
transform is a fixed function of the window's samples, so equality questions
between streamed and single-pass output reduce to the emitted window
sequences.  The loop carries `x[used_len - noverlap : used_len]` between
blocks and clamps writes to the remaining buffer columns. -/

/-- Number of full analysis windows scipy forms from a chunk of `len`
samples: `1 + (len - N) / hop` when `len ≥ N`, else `0`. -/
def n_frames_in (N hop len : ℕ) : ℕ :=
  if N ≤ len then 1 + (len - N) / hop else 0

/-- `used_len = nperseg + (n_frames - 1) * hop` (0 when no window fits). -/
def used_len (N hop len : ℕ) : ℕ :=
  if N ≤ len then N + (n_frames_in N hop len - 1) * hop else 0

/-- The hop-spaced `N`-length analysis windows of a signal, in order: the
transform inputs of one `scipy.signal.spectrogram` call (and of the
single-pass computation of `vlf_sp_old.py` on the whole selection). -/
def chunk_windows (N hop : ℕ) (y : List ℚ) : List (List ℚ) :=
  (List.range (n_frames_in N hop y.length)).map (fun i => (y.drop (i * hop)).take N)

/-- What one run of the `while` loop produces: the final column cursor, the
buffer column indices written, and the windows whose transforms were stored
(in storage order). -/
structure StreamOut where
  cursor : ℕ
  written : List ℕ
  cols : List (List ℚ)
deriving DecidableEq

/-- Model of the streaming loop of `plot_spectrogram` over the queued blocks:
prepend the carry, form as many full windows as fit, clamp the write to the
remaining columns (`end_cursor = min (cursor + n_frames) ncols`), carry the
last `V` consumed samples, and break once the cursor reaches `ncols`. -/
def stream_loop (N V hop ncols : ℕ) : List (List ℚ) → List ℚ → ℕ → StreamOut
  | [], _, cursor => ⟨cursor, [], []⟩
  | b :: rest, carry, cursor =>
    let x := carry ++ b
    if N ≤ x.length then
      let nf := n_frames_in N hop x.length
      let used := used_len N hop x.length
      let endc := min (cursor + nf) ncols
      let emitted := (chunk_windows N hop (x.take used)).take (endc - cursor)
      let idxs := List.range' cursor (endc - cursor)
      if ncols ≤ endc then ⟨endc, idxs, emitted⟩
      else
        let o := stream_loop N V hop ncols rest ((x.take used).drop (used - V)) endc
        ⟨o.cursor, idxs ++ o.written, emitted ++ o.cols⟩
    else
      if ncols ≤ cursor then ⟨cursor, [], []⟩
      else stream_loop N V hop ncols rest x cursor

/-- Claim C10: starting from a cursor within bounds, the cursor never exceeds
the allocated column count, every written column index is in bounds, and once
the cursor is at the last column nothing further is emitted no matter how
many blocks remain unread. -/
theorem stream_loop_cursor_bounded (N V hop ncols : ℕ) :
    ∀ (blocks : List (List ℚ)) (carry : List ℚ) (cursor : ℕ), cursor ≤ ncols →
      ((stream_loop N V hop ncols blocks carry cursor).cursor ≤ ncols ∧
       ∀ i ∈ (stream_loop N V hop ncols blocks carry cursor).written, i < ncols) ∧
      stream_loop N V hop ncols blocks carry ncols = ⟨ncols, [], []⟩ := by
  intro blocks
  induction blocks with
  | nil =>
    intro carry cursor hc
    exact ⟨⟨hc, by simp [stream_loop]⟩, rfl⟩
  | cons b rest ih =>
    intro carry cursor hc
    constructor
    · simp only [stream_loop]
      by_cases hlen : N ≤ (carry ++ b).length
      · simp only [if_pos hlen]
        set nf := n_frames_in N hop (carry ++ b).length with hnf
        set endc := min (cursor + nf) ncols with hendc
        have hend_le : endc ≤ ncols := by omega
        have hend_ge : cursor ≤ endc := by omega
        by_cases hfull : ncols ≤ endc
        · simp only [if_pos hfull]
          refine ⟨hend_le, ?_⟩
          intro i hi
          rw [List.mem_range'] at hi
          omega
        · simp only [if_neg hfull]
          obtain ⟨⟨ho1, ho2⟩, _⟩ := ih (((carry ++ b).take (used_len N hop (carry ++ b).length)).drop
            (used_len N hop (carry ++ b).length - V)) endc hend_le
          refine ⟨ho1, ?_⟩
          intro i hi
          simp only [List.mem_append] at hi
          rcases hi with hi | hi
          · rw [List.mem_range'] at hi
            omega
          · exact ho2 i hi
      · simp only [if_neg hlen]
        by_cases hstop : ncols ≤ cursor
        · simp only [if_pos hstop]
          exact ⟨hc, by simp⟩
        · simp only [if_neg hstop]
          exact (ih (carry ++ b) cursor hc).1
    · simp only [stream_loop]
      by_cases hlen : N ≤ (carry ++ b).length
      · simp only [if_pos hlen]
        have hendc : min (ncols + n_frames_in N hop (carry ++ b).length) ncols = ncols := by
          omega
        simp [hendc]
      · simp [if_neg hlen]

/-- Witness for C10 on a concrete run: one block of five samples, `N = 4`,
`V = 2`, `hop = 2`, four columns. -/
theorem stream_loop_cursor_bounded_witness :
    (((stream_loop 4 2 2 4 [[0, 1, 2, 3, 4]] [] 0).cursor ≤ 4 ∧
      ∀ i ∈ (stream_loop 4 2 2 4 [[0, 1, 2, 3, 4]] [] 0).written, i < 4) ∧
     stream_loop 4 2 2 4 [[0, 1, 2, 3, 4]] [] 4 = ⟨4, [], []⟩) :=
  stream_loop_cursor_bounded 4 2 2 4 [[0, 1, 2, 3, 4]] [] 0 (by decide)

/-! ## Claim C1: streamed versus single-pass output

`plot_spectrogram` reads the selected segment in blocks of
`frames_per_block` samples; the whole pipeline's emitted column sequence is
`stream_loop` over those blocks starting from empty carry and cursor `0`.
The single-pass transform of the same selection (`vlf_sp_old.py`, and the
spec's reference semantics) has one column per window in
`chunk_windows N hop sig`.

The carry at line 147 keeps only `x[used_len - noverlap : used_len]`: the
samples of `x` beyond `used_len` (up to `hop - 1` of them per block) are
dropped, so whenever `hop` does not divide the consumed block lengths the
streamed windows differ from the single-pass windows. -/

/-- The read loop: `to_read = min(frames_per_block, remaining)`, so the
selection is consumed in consecutive blocks of `B` samples (last one
shorter).  Fuel-based structural recursion (`sig.length` steps suffice). -/
def chunk_blocks_fuel : ℕ → ℕ → List ℚ → List (List ℚ)
  | 0, _, _ => []
  | _, _, [] => []
  | fuel + 1, B, sig => sig.take B :: chunk_blocks_fuel fuel B (sig.drop B)

/-- The blocks `plot_spectrogram` reads for a selection `sig`. -/
def chunk_blocks (B : ℕ) (sig : List ℚ) : List (List ℚ) :=
  chunk_blocks_fuel sig.length B sig

/-- The number of buffer columns allocated for a selection of `len` samples:
`max n_time 1` with `n_time` as precomputed. -/
def expected_cols (N hop len : ℕ) : ℕ :=
  max (if N ≤ len then 1 + (len - N) / hop else 1) 1

/-- The sequence of stored column windows of the streamed pipeline on
selection `sig` with window `N`, overlap `V` and block size `B`. -/
def plot_stream_cols (N V B : ℕ) (sig : List ℚ) : List (List ℚ) :=
  (stream_loop N V (N - V) (expected_cols N (N - V) sig.length)
    (chunk_blocks B sig) [] 0).cols

/-- The single-pass column windows over the same selection. -/
def single_pass_cols (N V : ℕ) (sig : List ℚ) : List (List ℚ) :=
  chunk_windows N (N - V) sig

/-- The concrete failing selection: ten samples `0..9`. -/
def sig10 : List ℚ := [0, 1, 2, 3, 4, 5, 6, 7, 8, 9]

/-- Claim C1 fails on the code: with `N = 4`, `V = 2` (so `0 < V < N`,
`hop = 2`) and block size `B = 5 ≥ N`, the streamed pipeline stores three
columns — the second from samples `[2, 3, 5, 6]`, sample 4 having been
dropped by the carry — while the single-pass transform yields four columns,
the second from `[2, 3, 4, 5]`.  Whatever per-window transform `F` is
applied, the emitted column sequences differ. -/
theorem stream_single_pass_divergence :
    plot_stream_cols 4 2 5 sig10 =
      [[0, 1, 2, 3], [2, 3, 5, 6], [5, 6, 7, 8]] ∧
    single_pass_cols 4 2 sig10 =
      [[0, 1, 2, 3], [2, 3, 4, 5], [4, 5, 6, 7], [6, 7, 8, 9]] ∧
    ∀ F : List ℚ → ℚ,
      (plot_stream_cols 4 2 5 sig10).map F ≠ (single_pass_cols 4 2 sig10).map F := by
  refine ⟨by decide, by decide, ?_⟩
  intro F h
  have hlen := congrArg List.length h
  simp only [List.length_map] at hlen
  have h1 : (plot_stream_cols 4 2 5 sig10).length = 3 := by decide
  have h2 : (single_pass_cols 4 2 sig10).length = 4 := by decide
  omega

/-! ## Renderer dynamic-range scaling (vlf_spectrogram.py, lines 162-179)

Buffer entries are decibel floats; an entry is either a finite value
(modelled as a `ℚ`) or non-finite (NaN/±inf, filtered out by
`np.isfinite`).  `np.nanpercentile` with the default linear interpolation:
on the sorted finite values `s[0..n-1]`, position `p/100 * (n-1)`, linearly
interpolating between the two neighbouring order statistics. -/

/-- A buffer entry as the renderer sees it: finite, or not. -/
inductive DbVal where
  | fin (q : ℚ)
  | nonfin
deriving DecidableEq

/-- `img_view[finite_mask]`: the finite entries, in order. -/
def finite_vals : List DbVal → List ℚ
  | [] => []
  | .fin q :: r => q :: finite_vals r
  | .nonfin :: r => finite_vals r

/-- Insertion into a sorted list (ascending). -/
def insert_sorted (x : ℚ) : List ℚ → List ℚ
  | [] => [x]
  | y :: r => if x ≤ y then x :: y :: r else y :: insert_sorted x r

/-- Insertion sort, ascending. -/
def sort_q : List ℚ → List ℚ
  | [] => []
  | x :: r => insert_sorted x (sort_q r)

/-- Order statistic with the index clamped to the list. -/
def nth_sorted (s : List ℚ) (i : ℕ) : ℚ :=
  s.getD (min i (s.length - 1)) 0

/-- `np.nanpercentile(xs, p)` with linear interpolation on the sorted
values. -/
def nanpercentile (xs : List ℚ) (p : ℚ) : ℚ :=
  let s := sort_q xs
  let pos : ℚ := p / 100 * ((s.length : ℚ) - 1)
  let i : ℕ := (max 0 (Int.floor pos)).toNat
  let lo := nth_sorted s i
  let hi := nth_sorted s (i + 1)
  lo + (pos - (i : ℚ)) * (hi - lo)

/-- The `vmin ≥ vmax` guard of line 176: nudge `vmax` to `vmin + 1`. -/
def nudge_range (p : ℚ × ℚ) : ℚ × ℚ :=
  if p.2 ≤ p.1 then (p.1, p.1 + 1) else p

/-- The dynamic color range of the renderer (lines 162-179): with a
configured dB range `R`, `vmax` is the `phigh` percentile of the finite
values and `vmin = vmax - R`; otherwise `vmin`/`vmax` are the `plow`/`phigh`
percentiles; with no finite values the fixed fallback `(-120, 0)`.  (The
`np.isfinite(vmin)` re-checks of lines 172-175 cannot fire here: a percentile
of finite values, or a finite difference, is finite.) -/
def compute_color_range (vals : List DbVal) (db_range : Option ℚ) (plow phigh : ℚ) : ℚ × ℚ :=
  let fv := finite_vals vals
  if fv.isEmpty then (-120, 0)
  else
    nudge_range (match db_range with
      | some r => (nanpercentile fv phigh - r, nanpercentile fv phigh)
      | none => (nanpercentile fv plow, nanpercentile fv phigh))

/-- Claim C9: with a configured dB range `R`, `vmax` is the high percentile
of the finite values and `vmin = vmax - R`; otherwise `vmin`/`vmax` are the
low/high percentiles; with no finite values the fallback is `(-120, 0)`;
whenever the computed `vmin ≥ vmax` the upper bound becomes `vmin + 1`; and
the result always satisfies `vmin < vmax` (in particular for any input with
at least two distinct finite values). -/
theorem renderer_range_spec (vals : List DbVal) (db_range : Option ℚ) (plow phigh : ℚ) :
    (finite_vals vals = [] → compute_color_range vals db_range plow phigh = (-120, 0)) ∧
    (∀ r, db_range = some r → finite_vals vals ≠ [] →
      compute_color_range vals db_range plow phigh =
        nudge_range (nanpercentile (finite_vals vals) phigh - r,
          nanpercentile (finite_vals vals) phigh)) ∧
    (db_range = none → finite_vals vals ≠ [] →
      compute_color_range vals db_range plow phigh =
        nudge_range (nanpercentile (finite_vals vals) plow,
          nanpercentile (finite_vals vals) phigh)) ∧
    (∀ p : ℚ × ℚ, p.2 ≤ p.1 → nudge_range p = (p.1, p.1 + 1)) ∧
    (compute_color_range vals db_range plow phigh).1 <
      (compute_color_range vals db_range plow phigh).2 := by
  refine ⟨?_, ?_, ?_, ?_, ?_⟩
  · intro h
    simp [compute_color_range, h]
  · intro r hr h
    simp only [compute_color_range, hr, List.isEmpty_iff, if_neg h]
  · intro hr h
    simp only [compute_color_range, hr, List.isEmpty_iff, if_neg h]
  · intro p hp
    simp [nudge_range, hp]
  · simp only [compute_color_range]
    split
    · norm_num
    · set q := (match db_range with
        | some r => (nanpercentile (finite_vals vals) phigh - r,
            nanpercentile (finite_vals vals) phigh)
        | none => (nanpercentile (finite_vals vals) plow,
            nanpercentile (finite_vals vals) phigh)) with hq
      unfold nudge_range
      split
      · simp only
        linarith
      · rename_i hlt
        push_neg at hlt
        exact hlt

/-- Witness for C9 at a concrete buffer with two distinct finite values and a
non-finite one, automatic percentile range. -/
theorem renderer_range_spec_witness :
    (finite_vals [.fin 0, .nonfin, .fin (-60)] = [] →
      compute_color_range [.fin 0, .nonfin, .fin (-60)] none 1 99 = (-120, 0)) ∧
    (∀ r, (none : Option ℚ) = some r → finite_vals [.fin 0, .nonfin, .fin (-60)] ≠ [] →
      compute_color_range [.fin 0, .nonfin, .fin (-60)] none 1 99 =
        nudge_range (nanpercentile (finite_vals [.fin 0, .nonfin, .fin (-60)]) 99 - r,
          nanpercentile (finite_vals [.fin 0, .nonfin, .fin (-60)]) 99)) ∧
    ((none : Option ℚ) = none → finite_vals [.fin 0, .nonfin, .fin (-60)] ≠ [] →
      compute_color_range [.fin 0, .nonfin, .fin (-60)] none 1 99 =
        nudge_range (nanpercentile (finite_vals [.fin 0, .nonfin, .fin (-60)]) 1,
          nanpercentile (finite_vals [.fin 0, .nonfin, .fin (-60)]) 99)) ∧
    (∀ p : ℚ × ℚ, p.2 ≤ p.1 → nudge_range p = (p.1, p.1 + 1)) ∧
    (compute_color_range [.fin 0, .nonfin, .fin (-60)] none 1 99).1 <
      (compute_color_range [.fin 0, .nonfin, .fin (-60)] none 1 99).2 :=
  renderer_range_spec [.fin 0, .nonfin, .fin (-60)] none 1 99

end Sferics
